import Mathlib

/-!
Verification of the solar1 drone-synth core: the ADSR envelope state machine
(src/adsr.rs), the MIDI note-to-frequency map (src/midi.rs), and the
per-sample render loop of the plugin (src/lib.rs).

Embedding conventions:
  - f64 values inside the envelope are modeled as `F := Option ℚ`:
    `some q` is the finite value `q`, `none` is a non-finite result (NaN).
    Division by zero yields `none`.  On every path reached by the claims the
    only division by zero is `0.0 / 0.0`, which is a genuine NaN in IEEE
    arithmetic, so the conflation of NaN with infinities is harmless there.
    IEEE comparisons involving NaN are false, so the Bool comparison helpers
    return `false` on `none`.
  - host time, sample rate and envelope parameters are exact rationals
    (the knob-derived f64 parameter values are always finite).
  - the frequency computation and the oscillator mix are real-valued, since
    they involve `exp2` of non-integer arguments.
  - the `assert!` calls in the Rust decay and release arms are not modeled as
    panics; the bounds they assert are instead proved as theorems for the
    parameter ranges where the asserted expressions are finite.
-/

namespace Solar1

/-- Model of an f64 scalar: `some q` finite, `none` NaN (non-finite). -/
abbrev F := Option ℚ

/-- f64 division: division by zero produces a non-finite value. -/
def fdiv (a b : ℚ) : F := if b = 0 then none else some (a / b)

/-- f64 subtraction on possibly-NaN values: NaN propagates. -/
def fsub : F → F → F
  | some a, some b => some (a - b)
  | _, _ => none

/-- f64 multiplication on possibly-NaN values: NaN propagates. -/
def fmul : F → F → F
  | some a, some b => some (a * b)
  | _, _ => none

/-- The Rust comparison alpha <= 0.0: false when alpha is NaN. -/
def fle0 : F → Bool
  | some a => decide (a ≤ 0)
  | none => false

/-- AdsrParams from src/adsr.rs. -/
structure AdsrParams where
  attack_s : ℚ
  decay_s : ℚ
  sustain_level : ℚ
  release_s : ℚ
deriving DecidableEq

/-- AdsrEnvelopeState from src/adsr.rs.  The level captured at the start of a
release is the result of a sample call and may be NaN, hence type `F`. -/
inductive AdsrEnvelopeState where
  | Attack (attack_start : ℚ)
  | Decay (decay_start : ℚ)
  | Sustain
  | Release (start : ℚ) (level : F)
  | Silent
deriving DecidableEq

/-- AdsrEnvelope from src/adsr.rs: parameters plus current state. -/
structure AdsrEnvelope where
  params : AdsrParams
  state : AdsrEnvelopeState
deriving DecidableEq

/-- AdsrEnvelope::new: starts Silent. -/
def AdsrEnvelope.new (params : AdsrParams) : AdsrEnvelope :=
  ⟨params, .Silent⟩

/-- AdsrEnvelope::trigger: unconditionally restarts the attack ramp. -/
def AdsrEnvelope.trigger (e : AdsrEnvelope) (time : ℚ) : AdsrEnvelope :=
  { e with state := .Attack time }

/-- One evaluation of the Sustain arm of the sample loop. -/
def sampleSustain (p : AdsrParams) : F × AdsrEnvelopeState :=
  (some p.sustain_level, .Sustain)

/-- One evaluation of the Decay arm of the sample loop.  When the elapsed time
leaves the decay window the loop advances to Sustain and re-evaluates.  The
source asserts 0 <= alpha <= 1 here; for decay_s = 0 and reltime = 0 the source
computes NaN and the assertion panics — the embedding returns the non-finite
value instead, and the bounds are proved separately for positive decay_s. -/
def sampleDecay (p : AdsrParams) (decay_start time : ℚ) : F × AdsrEnvelopeState :=
  let reltime := time - decay_start
  if reltime > p.decay_s ∨ reltime < 0 then
    sampleSustain p
  else
    (fsub (some 1) (fmul (fdiv reltime p.decay_s) (some (1 - p.sustain_level))),
     .Decay decay_start)

/-- One evaluation of the Attack arm of the sample loop.  When the elapsed time
exceeds attack_s the loop advances to Decay (starting at attack_start +
attack_s) and re-evaluates. -/
def sampleAttack (p : AdsrParams) (attack_start time : ℚ) : F × AdsrEnvelopeState :=
  let reltime := time - attack_start
  if reltime < 0 then
    (some 0, .Attack attack_start)
  else if reltime > p.attack_s then
    sampleDecay p (attack_start + p.attack_s) time
  else
    (fdiv reltime p.attack_s, .Attack attack_start)

/-- One evaluation of the Release arm of the sample loop.  The source asserts
alpha <= 1 in the final branch. -/
def sampleRelease (p : AdsrParams) (start : ℚ) (level : F) (time : ℚ) :
    F × AdsrEnvelopeState :=
  let reltime := time - start
  if reltime < 0 then
    (level, .Release start level)
  else
    let alpha := fsub level (fdiv reltime p.release_s)
    if fle0 alpha then
      (some 0, .Silent)
    else
      (alpha, .Release start level)

/-- Dispatch of the sample loop on the current state. -/
def sampleStep (p : AdsrParams) (st : AdsrEnvelopeState) (time : ℚ) :
    F × AdsrEnvelopeState :=
  match st with
  | .Silent => (some 0, .Silent)
  | .Sustain => sampleSustain p
  | .Attack attack_start => sampleAttack p attack_start time
  | .Decay decay_start => sampleDecay p decay_start time
  | .Release start level => sampleRelease p start level time

/-- AdsrEnvelope::sample: returns the amplitude at `time` and the envelope
after the lazy state advancement performed by the loop in the source.  The
loop transitions Attack → Decay → Sustain at most once each per call, so it is
unrolled into the helper functions above. -/
def AdsrEnvelope.sample (e : AdsrEnvelope) (time : ℚ) : F × AdsrEnvelope :=
  let r := sampleStep e.params e.state time
  (r.1, { e with state := r.2 })

/-- AdsrEnvelope::release: in Attack, Decay or Sustain the current amplitude is
sampled first (which may itself advance state lazily) and then the whole state
is overwritten with Release; in Silent or Release nothing happens. -/
def AdsrEnvelope.release (e : AdsrEnvelope) (time : ℚ) : AdsrEnvelope :=
  match e.state with
  | .Attack _ | .Decay _ | .Sustain =>
    let r := e.sample time
    { r.2 with state := .Release time r.1 }
  | .Silent | .Release _ _ => e

/-- An operation applied to an envelope by its caller. -/
inductive AdsrOp where
  | trig (t : ℚ)
  | rel (t : ℚ)
  | samp (t : ℚ)

/-- Run a sequence of trigger/release/sample calls, collecting the values
returned by the sample calls and the final envelope. -/
def runOps (e : AdsrEnvelope) : List AdsrOp → List F × AdsrEnvelope
  | [] => ([], e)
  | .trig t :: ops => runOps (e.trigger t) ops
  | .rel t :: ops => runOps (e.release t) ops
  | .samp t :: ops =>
    let r := e.sample t
    let rest := runOps r.2 ops
    (r.1 :: rest.1, rest.2)

/-- MidiNote from src/midi.rs: a wrapped u8 pitch (0 to 255; the musical
domain is 0 to 127). -/
structure MidiNote where
  pitch : ℕ
deriving DecidableEq

/-- The Rust cast of a u8 value to i8 (two's complement reinterpretation). -/
def i8_of_u8 (n : ℕ) : ℤ := if n < 128 then (n : ℤ) else (n : ℤ) - 256

/-- Wrapping of an integer into the i8 range, as release-mode i8 subtraction
does. -/
def i8_wrap (z : ℤ) : ℤ := (z + 128) % 256 - 128

/-- MidiNote::frequency from src/midi.rs: exp2 of (pitch as i8 - 69) / 12,
times 440.  The i8 subtraction wraps in release mode; for pitches up to 127
the wrap is the identity. -/
noncomputable def MidiNote.frequency (note : MidiNote) : ℝ :=
  (2 : ℝ) ^ (((i8_wrap (i8_of_u8 note.pitch - 69) : ℤ) : ℝ) / 12) * 440

/-- The semantic parameter values the render path reads from the parameter
store (src/param.rs accessors adsr, osc1_freq_mul, osc1_level, osc2_freq_mul,
osc2_level).  The knob-to-unit curve conversion is the responsibility of the
store and is out of scope; the values it returns are modeled directly. -/
structure Params where
  adsr : AdsrParams
  osc1_freq_mul : ℝ
  osc1_level : ℝ
  osc2_freq_mul : ℝ
  osc2_level : ℝ

/-- The Solar1 plugin state from src/lib.rs. -/
structure Voice where
  sample_rate : ℚ
  time : ℚ
  note : Option MidiNote
  envelope : AdsrEnvelope
  parameters : Params

/-- Solar1::time_per_sample. -/
def Voice.time_per_sample (s : Voice) : ℚ := 1 / s.sample_rate

/-- Solar1::note_on: builds a fresh envelope from the current parameters,
triggers it at the current time, and replaces the active note. -/
def Voice.note_on (s : Voice) (note : MidiNote) : Voice :=
  { s with
    envelope := (AdsrEnvelope.new s.parameters.adsr).trigger s.time,
    note := some note }

/-- Solar1::note_off: releases the envelope only when the identifier matches
the active note; the note itself is never forgotten (let it ring out). -/
def Voice.note_off (s : Voice) (note : MidiNote) : Voice :=
  if s.note = some note then
    { s with envelope := s.envelope.release s.time }
  else
    s

/-- Truncation toward zero, as the f64 remainder operator uses. -/
noncomputable def rtrunc (x : ℝ) : ℤ := if 0 ≤ x then ⌊x⌋ else ⌈x⌉

/-- The f64 remainder x % 1.0 from the render loop. -/
noncomputable def fmod1 (x : ℝ) : ℝ := x - rtrunc x

/-- The raw three-oscillator mix computed in Solar1::process for an active
note at the current time: base sawtooth plus two detuned, leveled ones. -/
noncomputable def Voice.mixedSignal (s : Voice) (current_note : MidiNote) : ℝ :=
  let time : ℝ := (s.time : ℝ)
  let base_freq := current_note.frequency
  let signal0 := fmod1 (time * base_freq) - 0.5
  let signal1 := fmod1 (time * base_freq * s.parameters.osc1_freq_mul) - 0.5
  let signal2 := fmod1 (time * base_freq * s.parameters.osc2_freq_mul) - 0.5
  signal0 + signal1 * s.parameters.osc1_level + signal2 * s.parameters.osc2_level

/-- One iteration of the per-sample render loop in Solar1::process
(src/lib.rs lines 130 to 151): with an active note the oscillator mix is
scaled by the envelope amplitude and the time counter advances by
time_per_sample; with no active note the output is 0.0 and, in the source,
the time counter is not touched.  The output is None when the envelope
amplitude is NaN. -/
noncomputable def Voice.processSample (s : Voice) : Option ℝ × Voice :=
  match s.note with
  | some current_note =>
    let signal := s.mixedSignal current_note
    let r := s.envelope.sample s.time
    (r.1.map (fun a => signal * (a : ℝ)),
     { s with envelope := r.2, time := s.time + s.time_per_sample })
  | none => (some 0, s)

/-- An event delivered to the plugin by the host. -/
inductive HostEvent where
  | noteOn (n : MidiNote)
  | noteOff (n : MidiNote)
  | renderSample
  | setSampleRate (r : ℚ)

/-- The state transition each host event induces (process_midi_event note
dispatch, one render-loop iteration, and set_sample_rate). -/
noncomputable def Voice.step (s : Voice) : HostEvent → Voice
  | .noteOn n => s.note_on n
  | .noteOff n => s.note_off n
  | .renderSample => s.processSample.2
  | .setSampleRate r => { s with sample_rate := r }

/-! Helper lemmas shared by the claim proofs. -/

theorem sample_params (e : AdsrEnvelope) (t : ℚ) : (e.sample t).2.params = e.params := rfl

theorem release_params (e : AdsrEnvelope) (t : ℚ) : (e.release t).params = e.params := by
  obtain ⟨p, st⟩ := e
  cases st <;> rfl

/-! C4: the worked example scenario of the spec, checked by evaluation. -/

/-- C4: with attack 0.2, decay 0.5, sustain 0.5, release 1.0, triggering at 0
and sampling at 0, 0.1, 0.2, 0.45, 0.7, releasing at 0.7 and sampling at 0.7
and 1.2 yields exactly 0, 0.5, 1, 0.75, 0.5, then 0.5, 0, with the envelope
ending Silent. -/
theorem adsr_example_scenario :
    runOps (AdsrEnvelope.new ⟨1/5, 1/2, 1/2, 1⟩)
      [.trig 0, .samp 0, .samp (1/10), .samp (1/5), .samp (9/20), .samp (7/10),
       .rel (7/10), .samp (7/10), .samp (12/10)] =
    ([some 0, some (1/2), some 1, some (3/4), some (1/2), some (1/2), some 0],
     ⟨⟨1/5, 1/2, 1/2, 1⟩, .Silent⟩) := by
  with_unfolding_all rfl

/-! C2: the unit-interval invariant fails as stated, because zero-duration
attack (or decay) segments divide 0.0 by 0.0 and return NaN. -/

/-- C2 counterexample: with attack_seconds = 0 (allowed by the claim, which
only requires attack_seconds ≥ 0), triggering at time 0 and sampling at time 0
returns the NaN value, not a member of [0, 1]. -/
theorem sample_nan_zero_attack_cex :
    (((AdsrEnvelope.new ⟨0, 3/10, 8/10, 1⟩).trigger 0).sample 0).1 = none := by
  with_unfolding_all rfl

/-! C3: the source does not special-case the division by zero.  In the Attack
arm with attack_s = 0 and time equal to the attack start, reltime = 0 is
neither negative nor greater than attack_s, so the source computes
0.0 / 0.0 = NaN and returns it; nothing maps it to 1.0 or another defined
value. -/

/-- C3: evaluating the code at the failing input: attack_seconds = 0,
trigger(0), then sample(0) returns the non-finite (NaN) value produced by the
unguarded division, contradicting the required special-casing. -/
theorem zero_attack_sample_is_nan :
    (((AdsrEnvelope.new ⟨0, 1/2, 1/2, 2⟩).trigger 0).sample 0).1 = none ∧
    ∀ q : ℚ, (((AdsrEnvelope.new ⟨0, 1/2, 1/2, 2⟩).trigger 0).sample 0).1 ≠ some q := by
  refine ⟨by with_unfolding_all rfl, ?_⟩
  intro q
  simp [AdsrEnvelope.new, AdsrEnvelope.trigger, AdsrEnvelope.sample, sampleStep, sampleAttack,
    fdiv]

/-! C8: the note-to-frequency map. -/

theorem i8_wrap_small (z : ℤ) (h1 : -128 ≤ z) (h2 : z < 128) : i8_wrap z = z := by
  unfold i8_wrap
  omega

theorem frequency_of_le_127 (n : ℕ) (h : n ≤ 127) :
    (MidiNote.mk n).frequency = 440 * (2 : ℝ) ^ (((n : ℝ) - 69) / 12) := by
  have h1 : i8_of_u8 n = (n : ℤ) := by
    unfold i8_of_u8
    rw [if_pos (by omega)]
  have h2 : i8_wrap ((n : ℤ) - 69) = (n : ℤ) - 69 := i8_wrap_small _ (by omega) (by omega)
  unfold MidiNote.frequency
  rw [h1, h2]
  push_cast
  ring

/-- C8: for every pitch in the MIDI domain 0 to 127 the frequency is
440 * 2 ^ ((pitch - 69) / 12); in particular pitch 69 maps to 440 Hz, 81 to
880 Hz and 57 to 220 Hz. -/
theorem frequency_equal_tempered :
    (∀ n : ℕ, n ≤ 127 →
      (MidiNote.mk n).frequency = 440 * (2 : ℝ) ^ (((n : ℝ) - 69) / 12)) ∧
    (MidiNote.mk 69).frequency = 440 ∧
    (MidiNote.mk 81).frequency = 880 ∧
    (MidiNote.mk 57).frequency = 220 := by
  refine ⟨frequency_of_le_127, ?_, ?_, ?_⟩
  · rw [frequency_of_le_127 69 (by norm_num)]
    norm_num
  · rw [frequency_of_le_127 81 (by norm_num)]
    have : (((81 : ℕ) : ℝ) - 69) / 12 = 1 := by norm_num
    rw [this, Real.rpow_one]
    norm_num
  · rw [frequency_of_le_127 57 (by norm_num)]
    have : (((57 : ℕ) : ℝ) - 69) / 12 = -1 := by norm_num
    rw [this, Real.rpow_neg_one]
    norm_num

/-- C8 witness: the general statement applied at pitch 60. -/
theorem frequency_equal_tempered_witness :
    (MidiNote.mk 60).frequency = 440 * (2 : ℝ) ^ ((((60 : ℕ) : ℝ) - 69) / 12) :=
  frequency_equal_tempered.1 60 (by norm_num)

/-! Concrete fixtures used by witnesses and counterexamples. -/

/-- A concrete parameter-store snapshot. -/
noncomputable def paramsFix : Params := ⟨⟨3/10, 3/10, 4/5, 1⟩, 1, 1/2, 2, 1/2⟩

/-- A voice with no active note. -/
noncomputable def voiceSilent : Voice :=
  ⟨44100, 0, none, AdsrEnvelope.new ⟨3/10, 3/10, 4/5, 1⟩, paramsFix⟩

/-- A voice holding note 69 in sustain. -/
noncomputable def voiceActive : Voice :=
  ⟨44100, 1/100, some ⟨69⟩, ⟨⟨3/10, 3/10, 4/5, 1⟩, .Sustain⟩, paramsFix⟩

/-- A sustaining envelope fixture. -/
def envSus : AdsrEnvelope := ⟨⟨3/10, 1/2, 3/4, 2⟩, .Sustain⟩

/-! C9: note-off for a non-active note identifier is a strict no-op. -/

/-- C9: a note-off whose identifier differs from the active note leaves the
whole voice state (envelope and active note included) unchanged. -/
theorem note_off_nonactive_noop (s : Voice) (m n : MidiNote) (hm : s.note = some m)
    (hne : m ≠ n) : s.note_off n = s := by
  simp [Voice.note_off, hm, Option.some.injEq, hne]

/-- C9 witness: the stale note-off 60 against active note 69. -/
theorem note_off_nonactive_noop_witness : voiceActive.note_off ⟨60⟩ = voiceActive :=
  note_off_nonactive_noop voiceActive ⟨69⟩ ⟨60⟩ rfl (by decide)

/-! C6: the release transition table. -/

/-- C6: release is a no-op in Silent and Release; in Attack, Decay or Sustain
it moves to Release with start set to the call time and level set to the value
obtained by sampling the original envelope at that time (so lazy advancement
inside that sampling is reflected in the captured level, and parameters are
kept). -/
theorem release_transition_spec (e : AdsrEnvelope) (t : ℚ) :
    (e.state = .Silent → e.release t = e) ∧
    (∀ s lv, e.state = .Release s lv → e.release t = e) ∧
    (∀ a, e.state = .Attack a → e.release t = ⟨e.params, .Release t (e.sample t).1⟩) ∧
    (∀ d, e.state = .Decay d → e.release t = ⟨e.params, .Release t (e.sample t).1⟩) ∧
    (e.state = .Sustain → e.release t = ⟨e.params, .Release t (e.sample t).1⟩) := by
  obtain ⟨p, st⟩ := e
  cases st <;> simp [AdsrEnvelope.release, AdsrEnvelope.sample]

/-- C6 witness: releasing the sustaining fixture at time 2. -/
theorem release_transition_spec_witness :
    envSus.release 2 = ⟨envSus.params, .Release 2 (envSus.sample 2).1⟩ :=
  (release_transition_spec envSus 2).2.2.2.2 rfl

/-! C7: repeated sampling at an unchanged time does not advance state or
change the returned amplitude. -/

theorem decay_rerun (p : AdsrParams) (d t : ℚ) :
    sampleStep p (sampleDecay p d t).2 t = sampleDecay p d t := by
  by_cases h : t - d > p.decay_s ∨ t - d < 0
  · simp only [sampleDecay, if_pos h]
    rfl
  · simp only [sampleDecay, if_neg h]
    simp only [sampleStep, sampleDecay, if_neg h]

theorem attack_rerun (p : AdsrParams) (a t : ℚ) :
    sampleStep p (sampleAttack p a t).2 t = sampleAttack p a t := by
  by_cases h1 : t - a < 0
  · simp only [sampleAttack, if_pos h1]
    simp only [sampleStep, sampleAttack, if_pos h1]
  · by_cases h2 : t - a > p.attack_s
    · simp only [sampleAttack, if_neg h1, if_pos h2]
      exact decay_rerun p (a + p.attack_s) t
    · simp only [sampleAttack, if_neg h1, if_neg h2]
      simp only [sampleStep, sampleAttack, if_neg h1, if_neg h2]

theorem release_rerun (p : AdsrParams) (s : ℚ) (lv : F) (t : ℚ) :
    sampleStep p (sampleRelease p s lv t).2 t = sampleRelease p s lv t := by
  by_cases h1 : t - s < 0
  · simp only [sampleRelease, if_pos h1]
    simp only [sampleStep, sampleRelease, if_pos h1]
  · by_cases h2 : fle0 (fsub lv (fdiv (t - s) p.release_s)) = true
    · simp only [sampleRelease, if_neg h1, if_pos h2]
      rfl
    · simp only [sampleRelease, if_neg h1, if_neg h2]
      simp only [sampleStep, sampleRelease, if_neg h1, if_neg h2]

theorem sampleStep_rerun (p : AdsrParams) (st : AdsrEnvelopeState) (t : ℚ) :
    sampleStep p (sampleStep p st t).2 t = sampleStep p st t := by
  cases st with
  | Silent => rfl
  | Sustain => rfl
  | Attack a => exact attack_rerun p a t
  | Decay d => exact decay_rerun p d t
  | Release s lv => exact release_rerun p s lv t

theorem sample_rerun (e : AdsrEnvelope) (t : ℚ) : (e.sample t).2.sample t = e.sample t := by
  obtain ⟨p, st⟩ := e
  simp [AdsrEnvelope.sample, sampleStep_rerun]

/-- C7: sampling again at an unchanged time returns the same amplitude and
leaves the envelope exactly where the first call left it; consequently a
duplicated sample call in a call sequence adds only a copy of the same value
and does not change the final envelope. -/
theorem sample_idempotent_replay :
    (∀ (e : AdsrEnvelope) (t : ℚ), (e.sample t).2.sample t = e.sample t) ∧
    (∀ (e : AdsrEnvelope) (t : ℚ) (ops : List AdsrOp),
      runOps e (.samp t :: .samp t :: ops) =
        ((e.sample t).1 :: (runOps e (.samp t :: ops)).1,
         (runOps e (.samp t :: ops)).2)) := by
  refine ⟨sample_rerun, ?_⟩
  intro e t ops
  simp [runOps, sample_rerun e t]

/-! C1: the render loop advances time only while a note is active. -/

/-- C1 counterexample: with no active note the rendered sample is 0.0 but the
time counter does not move, contradicting the claim that time advances by
1 / sample_rate once per rendered sample independent of note activity. -/
theorem time_not_advanced_when_silent_cex :
    voiceSilent.processSample.1 = some 0 ∧
    voiceSilent.processSample.2.time = voiceSilent.time ∧
    voiceSilent.processSample.2.time ≠ voiceSilent.time + 1 / voiceSilent.sample_rate := by
  refine ⟨rfl, rfl, ?_⟩
  simp only [voiceSilent, Voice.processSample]
  norm_num

/-- C1 amended: the time counter advances by exactly 1 / sample_rate once per
rendered sample while a note is active; when no note is active the output
sample is exactly 0.0 and the time counter does not advance. -/
theorem render_time_advance_amended (s : Voice) :
    (s.note = none → s.processSample.1 = some 0 ∧ s.processSample.2.time = s.time) ∧
    (∀ n, s.note = some n → s.processSample.2.time = s.time + 1 / s.sample_rate) := by
  constructor
  · intro h
    simp [Voice.processSample, h]
  · intro n h
    simp [Voice.processSample, h, Voice.time_per_sample]

/-- C1 amended witness: the silent fixture keeps its clock, the active fixture
advances it by one sample period. -/
theorem render_time_advance_amended_witness :
    (voiceSilent.processSample.1 = some 0 ∧
     voiceSilent.processSample.2.time = voiceSilent.time) ∧
    voiceActive.processSample.2.time = voiceActive.time + 1 / voiceActive.sample_rate :=
  ⟨(render_time_advance_amended voiceSilent).1 rfl,
   (render_time_advance_amended voiceActive).2 ⟨69⟩ rfl⟩

/-! C10: the active note is never cleared once set. -/

/-- C10: every host event preserves the presence of an active note (note-off
releases the envelope but keeps the note), so every later render iteration
still evaluates the oscillator mix, advances time, and produces the mix scaled
by the envelope amplitude — silence after release can only come from that
amplitude reaching zero, never from the voice becoming note-inactive. -/
theorem active_note_never_cleared (s : Voice) (ev : HostEvent) (h : s.note.isSome) :
    (s.step ev).note.isSome ∧
    (∀ n, (s.note_off n).note = s.note) ∧
    s.processSample.2.note = s.note ∧
    s.processSample.2.time = s.time + s.time_per_sample ∧
    (∀ n, s.note = some n →
      s.processSample.1 =
        (s.envelope.sample s.time).1.map (fun a => s.mixedSignal n * (a : ℝ))) := by
  obtain ⟨n0, hn0⟩ := Option.isSome_iff_exists.mp h
  refine ⟨?_, ?_, ?_, ?_, ?_⟩
  · cases ev with
    | noteOn n => simp [Voice.step, Voice.note_on]
    | noteOff n =>
      simp only [Voice.step, Voice.note_off]
      split_ifs <;> simp [hn0]
    | renderSample => simp [Voice.step, Voice.processSample, hn0]
    | setSampleRate r => simpa [Voice.step] using h
  · intro n
    simp only [Voice.note_off]
    split_ifs <;> rfl
  · simp [Voice.processSample, hn0]
  · simp [Voice.processSample, hn0, Voice.time_per_sample]
  · intro n hn
    simp [Voice.processSample, hn]

/-- C10 witness: the invariant applied to the active fixture under a stale
note-off event. -/
theorem active_note_never_cleared_witness :
    ((voiceActive.step (.noteOff ⟨60⟩)).note.isSome ∧
     (∀ n, (voiceActive.note_off n).note = voiceActive.note) ∧
     voiceActive.processSample.2.note = voiceActive.note ∧
     voiceActive.processSample.2.time = voiceActive.time + voiceActive.time_per_sample ∧
     (∀ n, voiceActive.note = some n →
       voiceActive.processSample.1 =
         (voiceActive.envelope.sample voiceActive.time).1.map
           (fun a => voiceActive.mixedSignal n * (a : ℝ)))) :=
  active_note_never_cleared voiceActive (.noteOff ⟨60⟩) rfl

/-! C2: the unit-interval invariant, proved for strictly positive attack and
decay durations (the amendment forced by the NaN counterexample above). -/

/-- A finite amplitude in the unit interval. -/
def FIn01 (v : F) : Prop := ∃ q, v = some q ∧ 0 ≤ q ∧ q ≤ 1

/-- The state invariant: a captured release level is finite and in [0, 1]. -/
def GoodState : AdsrEnvelopeState → Prop
  | .Release _ level => FIn01 level
  | _ => True

/-- Parameter validity for the amended claim: strictly positive attack, decay
and release durations and a sustain level in [0, 1]. -/
def ValidParams (p : AdsrParams) : Prop :=
  0 < p.attack_s ∧ 0 < p.decay_s ∧ 0 ≤ p.sustain_level ∧ p.sustain_level ≤ 1 ∧
    0 < p.release_s

theorem sampleSustain_bounds (p : AdsrParams) (hs0 : 0 ≤ p.sustain_level)
    (hs1 : p.sustain_level ≤ 1) :
    FIn01 (sampleSustain p).1 ∧ GoodState (sampleSustain p).2 :=
  ⟨⟨p.sustain_level, rfl, hs0, hs1⟩, trivial⟩

theorem sampleDecay_bounds (p : AdsrParams) (d t : ℚ) (hd : 0 < p.decay_s)
    (hs0 : 0 ≤ p.sustain_level) (hs1 : p.sustain_level ≤ 1) :
    FIn01 (sampleDecay p d t).1 ∧ GoodState (sampleDecay p d t).2 := by
  by_cases h : t - d > p.decay_s ∨ t - d < 0
  · simp only [sampleDecay, if_pos h]
    exact sampleSustain_bounds p hs0 hs1
  · obtain ⟨hgt, hlt⟩ := not_or.mp h
    have hle : t - d ≤ p.decay_s := not_lt.mp hgt
    have hge : 0 ≤ t - d := not_lt.mp hlt
    have hx0 : 0 ≤ (t - d) / p.decay_s := div_nonneg hge hd.le
    have hx1 : (t - d) / p.decay_s ≤ 1 := (div_le_one hd).mpr hle
    simp only [sampleDecay, if_neg h]
    refine ⟨⟨1 - (t - d) / p.decay_s * (1 - p.sustain_level), ?_, ?_, ?_⟩, trivial⟩
    · simp [fdiv, fsub, fmul, hd.ne']
    · nlinarith
    · nlinarith

theorem sampleAttack_bounds (p : AdsrParams) (a t : ℚ) (ha : 0 < p.attack_s)
    (hd : 0 < p.decay_s) (hs0 : 0 ≤ p.sustain_level) (hs1 : p.sustain_level ≤ 1) :
    FIn01 (sampleAttack p a t).1 ∧ GoodState (sampleAttack p a t).2 := by
  by_cases h1 : t - a < 0
  · simp only [sampleAttack, if_pos h1]
    exact ⟨⟨0, rfl, le_refl 0, by norm_num⟩, trivial⟩
  · by_cases h2 : t - a > p.attack_s
    · simp only [sampleAttack, if_neg h1, if_pos h2]
      exact sampleDecay_bounds p _ t hd hs0 hs1
    · simp only [sampleAttack, if_neg h1, if_neg h2]
      refine ⟨⟨(t - a) / p.attack_s, by simp [fdiv, ha.ne'], ?_, ?_⟩, trivial⟩
      · exact div_nonneg (not_lt.mp h1) ha.le
      · exact (div_le_one ha).mpr (not_lt.mp h2)

theorem sampleRelease_bounds (p : AdsrParams) (s : ℚ) (lv : F) (t : ℚ)
    (hr : 0 < p.release_s) (hlv : FIn01 lv) :
    FIn01 (sampleRelease p s lv t).1 ∧ GoodState (sampleRelease p s lv t).2 := by
  obtain ⟨q, rfl, hq0, hq1⟩ := hlv
  by_cases h1 : t - s < 0
  · simp only [sampleRelease, if_pos h1]
    exact ⟨⟨q, rfl, hq0, hq1⟩, ⟨q, rfl, hq0, hq1⟩⟩
  · have halpha : fsub (some q) (fdiv (t - s) p.release_s) =
        some (q - (t - s) / p.release_s) := by
      simp [fsub, fdiv, hr.ne']
    by_cases h2 : fle0 (fsub (some q) (fdiv (t - s) p.release_s)) = true
    · simp only [sampleRelease, if_neg h1, if_pos h2]
      exact ⟨⟨0, rfl, le_refl 0, by norm_num⟩, trivial⟩
    · rw [halpha] at h2
      have hnle : ¬(q - (t - s) / p.release_s ≤ 0) := by
        intro hx
        exact h2 (by simp [fle0, hx])
      have hpos : 0 < q - (t - s) / p.release_s := not_le.mp hnle
      simp only [sampleRelease, if_neg h1, halpha, if_neg h2]
      refine ⟨⟨q - (t - s) / p.release_s, rfl, hpos.le, ?_⟩, ⟨q, rfl, hq0, hq1⟩⟩
      have hnn : 0 ≤ (t - s) / p.release_s := div_nonneg (not_lt.mp h1) hr.le
      linarith

theorem sampleStep_bounds (p : AdsrParams) (st : AdsrEnvelopeState) (t : ℚ)
    (hp : ValidParams p) (hg : GoodState st) :
    FIn01 (sampleStep p st t).1 ∧ GoodState (sampleStep p st t).2 := by
  obtain ⟨ha, hd, hs0, hs1, hr⟩ := hp
  cases st with
  | Silent => exact ⟨⟨0, rfl, le_refl 0, by norm_num⟩, trivial⟩
  | Sustain => exact sampleSustain_bounds p hs0 hs1
  | Attack a => exact sampleAttack_bounds p a t ha hd hs0 hs1
  | Decay d => exact sampleDecay_bounds p d t hd hs0 hs1
  | Release s lv => exact sampleRelease_bounds p s lv t hr hg

theorem sample_bounds (e : AdsrEnvelope) (t : ℚ) (hp : ValidParams e.params)
    (hg : GoodState e.state) :
    FIn01 (e.sample t).1 ∧ GoodState (e.sample t).2.state :=
  sampleStep_bounds e.params e.state t hp hg

theorem release_good (e : AdsrEnvelope) (t : ℚ) (hp : ValidParams e.params)
    (hg : GoodState e.state) : GoodState (e.release t).state := by
  obtain ⟨p, st⟩ := e
  cases st with
  | Silent => exact hg
  | Release s lv => exact hg
  | Attack a => exact (sample_bounds ⟨p, .Attack a⟩ t hp trivial).1
  | Decay d => exact (sample_bounds ⟨p, .Decay d⟩ t hp trivial).1
  | Sustain => exact (sample_bounds ⟨p, .Sustain⟩ t hp trivial).1

theorem runOps_bounds (ops : List AdsrOp) (e : AdsrEnvelope) (hp : ValidParams e.params)
    (hg : GoodState e.state) : ∀ v ∈ (runOps e ops).1, FIn01 v := by
  induction ops generalizing e with
  | nil => intro v hv; simp [runOps] at hv
  | cons op ops ih =>
    cases op with
    | trig t =>
      intro v hv
      simp only [runOps] at hv
      exact ih (e.trigger t) hp trivial v hv
    | rel t =>
      intro v hv
      simp only [runOps] at hv
      refine ih (e.release t) ?_ (release_good e t hp hg) v hv
      rw [release_params]
      exact hp
    | samp t =>
      intro v hv
      simp only [runOps] at hv
      rcases List.mem_cons.mp hv with h | h
      · rw [h]
        exact (sample_bounds e t hp hg).1
      · exact ih (e.sample t).2 (by rw [sample_params]; exact hp)
          (sample_bounds e t hp hg).2 v h

/-- C2 amended: for attack_seconds > 0, decay_seconds > 0, sustain in [0, 1]
and release_seconds > 0, every value returned by sample during any sequence of
trigger/release/sample calls starting from a fresh envelope is a finite value
in [0, 1] (so also for any non-decreasing call sequence, and at any time at or
after the trigger time). -/
theorem sample_in_unit_interval_amended (p : AdsrParams) (ha : 0 < p.attack_s)
    (hd : 0 < p.decay_s) (hs0 : 0 ≤ p.sustain_level) (hs1 : p.sustain_level ≤ 1)
    (hr : 0 < p.release_s) (ops : List AdsrOp) :
    ∀ v ∈ (runOps (AdsrEnvelope.new p) ops).1, ∃ q, v = some q ∧ 0 ≤ q ∧ q ≤ 1 :=
  runOps_bounds ops (AdsrEnvelope.new p) ⟨ha, hd, hs0, hs1, hr⟩ trivial

/-- C2 amended witness: the bound applied to the value sampled mid-attack
after triggering at 0. -/
theorem sample_in_unit_interval_amended_witness :
    ∃ q, (((AdsrEnvelope.new ⟨2/5, 1/2, 1/2, 1⟩).trigger 0).sample (1/5)).1 = some q ∧
      0 ≤ q ∧ q ≤ 1 :=
  sample_in_unit_interval_amended ⟨2/5, 1/2, 1/2, 1⟩ (by norm_num) (by norm_num)
    (by norm_num) (by norm_num) (by norm_num) [.trig 0, .samp (1/5)]
    (((AdsrEnvelope.new ⟨2/5, 1/2, 1/2, 1⟩).trigger 0).sample (1/5)).1
    (List.Mem.head _)

/-! C5: releasing during Attack at a (finite) amplitude L yields L at the
release time, 0 at release_seconds later, and Silent ever after. -/

theorem decay_finite_bounds (p : AdsrParams) (d t L : ℚ) (hd : 0 ≤ p.decay_s)
    (hs0 : 0 ≤ p.sustain_level) (hs1 : p.sustain_level ≤ 1)
    (hL : (sampleDecay p d t).1 = some L) : 0 ≤ L ∧ L ≤ 1 := by
  by_cases h : t - d > p.decay_s ∨ t - d < 0
  · simp only [sampleDecay, if_pos h, sampleSustain] at hL
    obtain rfl : p.sustain_level = L := Option.some.inj hL
    exact ⟨hs0, hs1⟩
  · obtain ⟨hgt, hlt⟩ := not_or.mp h
    have hle : t - d ≤ p.decay_s := not_lt.mp hgt
    have hge : 0 ≤ t - d := not_lt.mp hlt
    simp only [sampleDecay, if_neg h] at hL
    by_cases hd0 : p.decay_s = 0
    · exfalso
      simp [fdiv, hd0, fmul, fsub] at hL
    · have hdp : 0 < p.decay_s := lt_of_le_of_ne hd (Ne.symm hd0)
      simp only [fdiv, if_neg hd0, fmul, fsub] at hL
      obtain rfl : 1 - (t - d) / p.decay_s * (1 - p.sustain_level) = L :=
        Option.some.inj hL
      have hx0 : 0 ≤ (t - d) / p.decay_s := div_nonneg hge hdp.le
      have hx1 : (t - d) / p.decay_s ≤ 1 := (div_le_one hdp).mpr hle
      constructor
      · nlinarith
      · nlinarith

theorem attack_finite_bounds (p : AdsrParams) (a t L : ℚ) (ha : 0 ≤ p.attack_s)
    (hd : 0 ≤ p.decay_s) (hs0 : 0 ≤ p.sustain_level) (hs1 : p.sustain_level ≤ 1)
    (hL : (sampleAttack p a t).1 = some L) : 0 ≤ L ∧ L ≤ 1 := by
  by_cases h1 : t - a < 0
  · simp only [sampleAttack, if_pos h1] at hL
    obtain rfl : (0 : ℚ) = L := Option.some.inj hL
    exact ⟨le_refl 0, by norm_num⟩
  · by_cases h2 : t - a > p.attack_s
    · simp only [sampleAttack, if_neg h1, if_pos h2] at hL
      exact decay_finite_bounds p _ t L hd hs0 hs1 hL
    · simp only [sampleAttack, if_neg h1, if_neg h2] at hL
      by_cases ha0 : p.attack_s = 0
      · exfalso
        simp [fdiv, ha0] at hL
      · have hap : 0 < p.attack_s := lt_of_le_of_ne ha (Ne.symm ha0)
        simp only [fdiv, if_neg ha0] at hL
        obtain rfl : (t - a) / p.attack_s = L := Option.some.inj hL
        exact ⟨div_nonneg (not_lt.mp h1) hap.le, (div_le_one hap).mpr (not_lt.mp h2)⟩

theorem sampleRelease_at_start (p : AdsrParams) (s L : ℚ) (hr : 0 < p.release_s)
    (h0 : 0 ≤ L) : (sampleRelease p s (some L) s).1 = some L := by
  have h1 : ¬(s - s < 0) := by simp
  have halpha : fsub (some L) (fdiv (s - s) p.release_s) = some L := by
    simp [fsub, fdiv, hr.ne']
  by_cases hL0 : L ≤ 0
  · obtain rfl : L = 0 := le_antisymm hL0 h0
    simp only [sampleRelease, if_neg h1, halpha, fle0]
    rw [if_pos (decide_eq_true hL0)]
  · simp only [sampleRelease, if_neg h1, halpha, fle0]
    rw [if_neg]
    simp [hL0]

theorem sampleRelease_late (p : AdsrParams) (s L u : ℚ) (hr : 0 < p.release_s)
    (hL1 : L ≤ 1) (hu : s + p.release_s ≤ u) :
    sampleRelease p s (some L) u = (some 0, .Silent) := by
  have h1 : ¬(u - s < 0) := by
    push_neg
    nlinarith
  have hx : L - (u - s) / p.release_s ≤ 0 := by
    have hone : 1 ≤ (u - s) / p.release_s := (one_le_div hr).mpr (by linarith)
    linarith
  have halpha : fsub (some L) (fdiv (u - s) p.release_s) =
      some (L - (u - s) / p.release_s) := by
    simp [fsub, fdiv, hr.ne']
  simp only [sampleRelease, if_neg h1, halpha, fle0]
  rw [if_pos (decide_eq_true hx)]

/-- C5: for valid parameters (attack, decay ≥ 0, sustain in [0, 1],
release > 0), if release(t) is called while the envelope is in Attack and its
amplitude at t is the finite value L, then sampling the released envelope at t
returns L, sampling at t + release_seconds returns 0 and leaves the state
Silent, and sampling at any later time returns 0 and leaves the state
Silent. -/
theorem release_during_attack_full_decay (p : AdsrParams) (a t L : ℚ)
    (ha : 0 ≤ p.attack_s) (hd : 0 ≤ p.decay_s) (hs0 : 0 ≤ p.sustain_level)
    (hs1 : p.sustain_level ≤ 1) (hr : 0 < p.release_s)
    (hL : ((⟨p, .Attack a⟩ : AdsrEnvelope).sample t).1 = some L) :
    ((((⟨p, .Attack a⟩ : AdsrEnvelope).release t).sample t).1 = some L) ∧
    ((((⟨p, .Attack a⟩ : AdsrEnvelope).release t).sample (t + p.release_s)).1 = some 0) ∧
    ((((⟨p, .Attack a⟩ : AdsrEnvelope).release t).sample (t + p.release_s)).2.state =
      .Silent) ∧
    (∀ u, t + p.release_s < u →
      ((((⟨p, .Attack a⟩ : AdsrEnvelope).release t).sample u).1 = some 0) ∧
      ((((⟨p, .Attack a⟩ : AdsrEnvelope).release t).sample u).2.state = .Silent)) := by
  have hL' : (sampleAttack p a t).1 = some L := hL
  have hLb : 0 ≤ L ∧ L ≤ 1 := attack_finite_bounds p a t L ha hd hs0 hs1 hL'
  have her : (⟨p, .Attack a⟩ : AdsrEnvelope).release t = ⟨p, .Release t (some L)⟩ := by
    show (⟨p, .Release t (sampleAttack p a t).1⟩ : AdsrEnvelope) = _
    rw [hL']
  rw [her]
  refine ⟨?_, ?_, ?_, ?_⟩
  · show (sampleRelease p t (some L) t).1 = some L
    exact sampleRelease_at_start p t L hr hLb.1
  · show (sampleRelease p t (some L) (t + p.release_s)).1 = some 0
    rw [sampleRelease_late p t L (t + p.release_s) hr hLb.2 (by linarith)]
  · show (sampleRelease p t (some L) (t + p.release_s)).2 = .Silent
    rw [sampleRelease_late p t L (t + p.release_s) hr hLb.2 (by linarith)]
  · intro u hu
    constructor
    · show (sampleRelease p t (some L) u).1 = some 0
      rw [sampleRelease_late p t L u hr hLb.2 (by linarith)]
    · show (sampleRelease p t (some L) u).2 = .Silent
      rw [sampleRelease_late p t L u hr hLb.2 (by linarith)]

/-- C5 witness: releasing midway through a 0.4-second attack at amplitude
one half. -/
theorem release_during_attack_full_decay_witness :
    ((((⟨⟨2/5, 1/2, 3/4, 2⟩, .Attack 0⟩ : AdsrEnvelope).release (1/5)).sample (1/5)).1 =
      some (1/2)) ∧
    ((((⟨⟨2/5, 1/2, 3/4, 2⟩, .Attack 0⟩ : AdsrEnvelope).release (1/5)).sample
        (1/5 + (⟨2/5, 1/2, 3/4, 2⟩ : AdsrParams).release_s)).1 = some 0) ∧
    ((((⟨⟨2/5, 1/2, 3/4, 2⟩, .Attack 0⟩ : AdsrEnvelope).release (1/5)).sample
        (1/5 + (⟨2/5, 1/2, 3/4, 2⟩ : AdsrParams).release_s)).2.state = .Silent) ∧
    (∀ u, 1/5 + (⟨2/5, 1/2, 3/4, 2⟩ : AdsrParams).release_s < u →
      ((((⟨⟨2/5, 1/2, 3/4, 2⟩, .Attack 0⟩ : AdsrEnvelope).release (1/5)).sample u).1 =
        some 0) ∧
      ((((⟨⟨2/5, 1/2, 3/4, 2⟩, .Attack 0⟩ : AdsrEnvelope).release (1/5)).sample u).2.state =
        .Silent)) :=
  release_during_attack_full_decay ⟨2/5, 1/2, 3/4, 2⟩ 0 (1/5) (1/2) (by norm_num)
    (by norm_num) (by norm_num) (by norm_num) (by norm_num) (by with_unfolding_all rfl)

end Solar1
